import Mathlib

set_option maxRecDepth 100000

/-!
Verification of the brasil.io core data model (src/core/models.py).

This file gives a shallow embedding, in Lean 4, of the parts of
src/core/models.py that the testable claims of the specification are about:

* the identifier hasher make_index_name (with a concrete MD5
  implementation, since the Python code hashes with hashlib.md5);
* the DataTable generation lifecycle (activate / deactivate /
  delete with its pre_delete guard and post_delete cleanup);
* the DatasetTableModelQuerySet query-composition operations
  search, apply_ordering and count.

Machine integers are modelled as Nat with explicit reduction mod 2^32
where the 32-bit MD5 arithmetic overflows.  Python strings are Lean
Strings; the embedding of ascii-encoded hashing is faithful for ASCII
inputs (the Python code raises UnicodeEncodeError otherwise), so the
theorems about make_index_name carry ASCII hypotheses.
-/

namespace BrasilIO

/-! ## MD5 (hashlib.md5), needed by make_index_name -/

/-- The modulus of the 32-bit arithmetic used by MD5 (two to the 32). -/
def M32 : Nat := 4294967296

/-- Left-rotation of a 32-bit word. -/
def rotl32 (x n : Nat) : Nat := (((x <<< n) % M32) ||| (x >>> (32 - n)))

/-- The 64 MD5 sine-derived constants K[i]. -/
def md5K : List Nat :=
  [0xd76aa478, 0xe8c7b756, 0x242070db, 0xc1bdceee,
   0xf57c0faf, 0x4787c62a, 0xa8304613, 0xfd469501,
   0x698098d8, 0x8b44f7af, 0xffff5bb1, 0x895cd7be,
   0x6b901122, 0xfd987193, 0xa679438e, 0x49b40821,
   0xf61e2562, 0xc040b340, 0x265e5a51, 0xe9b6c7aa,
   0xd62f105d, 0x02441453, 0xd8a1e681, 0xe7d3fbc8,
   0x21e1cde6, 0xc33707d6, 0xf4d50d87, 0x455a14ed,
   0xa9e3e905, 0xfcefa3f8, 0x676f02d9, 0x8d2a4c8a,
   0xfffa3942, 0x8771f681, 0x6d9d6122, 0xfde5380c,
   0xa4beea44, 0x4bdecfa9, 0xf6bb4b60, 0xbebfbc70,
   0x289b7ec6, 0xeaa127fa, 0xd4ef3085, 0x04881d05,
   0xd9d4d039, 0xe6db99e5, 0x1fa27cf8, 0xc4ac5665,
   0xf4292244, 0x432aff97, 0xab9423a7, 0xfc93a039,
   0x655b59c3, 0x8f0ccc92, 0xffeff47d, 0x85845dd1,
   0x6fa87e4f, 0xfe2ce6e0, 0xa3014314, 0x4e0811a1,
   0xf7537e82, 0xbd3af235, 0x2ad7d2bb, 0xeb86d391]

/-- The 64 MD5 per-round left-rotation amounts s[i]. -/
def md5S : List Nat :=
  [7, 12, 17, 22, 7, 12, 17, 22, 7, 12, 17, 22, 7, 12, 17, 22,
   5, 9, 14, 20, 5, 9, 14, 20, 5, 9, 14, 20, 5, 9, 14, 20,
   4, 11, 16, 23, 4, 11, 16, 23, 4, 11, 16, 23, 4, 11, 16, 23,
   6, 10, 15, 21, 6, 10, 15, 21, 6, 10, 15, 21, 6, 10, 15, 21]

/-- The MD5 nonlinear mixing function for round i. -/
def md5F (i B C D : Nat) : Nat :=
  if i < 16 then (B &&& C) ||| ((B ^^^ 0xffffffff) &&& D)
  else if i < 32 then (D &&& B) ||| ((D ^^^ 0xffffffff) &&& C)
  else if i < 48 then B ^^^ C ^^^ D
  else C ^^^ (B ||| (D ^^^ 0xffffffff))

/-- The MD5 message-word index for round i. -/
def md5G (i : Nat) : Nat :=
  if i < 16 then i
  else if i < 32 then (5 * i + 1) % 16
  else if i < 48 then (3 * i + 5) % 16
  else (7 * i) % 16

/-- One MD5 round, acting on the (A, B, C, D) state. -/
def md5Step (M : List Nat) (st : Nat × Nat × Nat × Nat) (i : Nat) :
    Nat × Nat × Nat × Nat :=
  let A := st.1
  let B := st.2.1
  let C := st.2.2.1
  let D := st.2.2.2
  let F := (md5F i B C D + A + md5K.getD i 0 + M.getD (md5G i) 0) % M32
  (D, (B + rotl32 F (md5S.getD i 0)) % M32, B, C)

/-- Process one 16-word (512-bit) chunk into the running MD5 state. -/
def md5Chunk (h : Nat × Nat × Nat × Nat) (M : List Nat) :
    Nat × Nat × Nat × Nat :=
  let r := (List.range 64).foldl (md5Step M) h
  ((h.1 + r.1) % M32, (h.2.1 + r.2.1) % M32,
   (h.2.2.1 + r.2.2.1) % M32, (h.2.2.2 + r.2.2.2) % M32)

/-- Little-endian split of a value into n bytes. -/
def leBytes : Nat → Nat → List Nat
  | 0, _ => []
  | k + 1, v => (v % 256) :: leBytes k (v / 256)

/-- Group a byte list into little-endian 32-bit words. -/
def toWordsLE : List Nat → List Nat
  | b0 :: b1 :: b2 :: b3 :: rest =>
      (b0 + (b1 <<< 8) + (b2 <<< 16) + (b3 <<< 24)) :: toWordsLE rest
  | _ => []

/-- MD5 padding: append 0x80, zero bytes to 56 mod 64, then the
64-bit little-endian bit length. -/
def md5Pad (msg : List Nat) : List Nat :=
  let len := msg.length
  let z := (119 - (len % 64)) % 64
  msg ++ [128] ++ List.replicate z 0 ++ leBytes 8 ((len * 8) % (2 ^ 64))

/-- Accumulator-based splitting into 64-byte chunks (structural
recursion, so that it reduces inside the kernel). -/
def chunksAux : List Nat → List Nat → List (List Nat)
  | [], acc => if acc.isEmpty then [] else [acc.reverse]
  | b :: rest, acc =>
      if acc.length = 63 then (b :: acc).reverse :: chunksAux rest []
      else chunksAux rest (b :: acc)

/-- Split a byte list into 64-byte chunks. -/
def chunks64 (l : List Nat) : List (List Nat) := chunksAux l []

/-- The 16-byte MD5 digest of a byte list. -/
def md5Digest (msg : List Nat) : List Nat :=
  let ws := (chunks64 (md5Pad msg)).map toWordsLE
  let r := ws.foldl md5Chunk (0x67452301, 0xefcdab89, 0x98badcfe, 0x10325476)
  leBytes 4 r.1 ++ leBytes 4 r.2.1 ++ leBytes 4 r.2.2.1 ++ leBytes 4 r.2.2.2

/-- Lowercase hex digit for a value below 16. -/
def hexDigit (n : Nat) : Char :=
  if n < 10 then Char.ofNat (48 + n) else Char.ofNat (87 + n)

/-- Two lowercase hex digits of one byte. -/
def byteToHex (b : Nat) : List Char := [hexDigit (b / 16), hexDigit (b % 16)]

/-- hashlib.md5(s.encode("ascii")).hexdigest(): the 32-character
lowercase hex MD5 digest of a string.  Faithful for ASCII strings
(Python raises UnicodeEncodeError on non-ASCII input). -/
def md5Hex (s : String) : String :=
  String.mk (((md5Digest (s.data.map Char.toNat)).map byteToHex).flatten)

/-! ## Python string primitives

The built-in String.replace / String.take / decidable order of Lean do
not reduce inside the kernel (they are implemented by well-founded
recursion or extern code), so the Python string operations used by
src/core/models.py are modelled here by structurally recursive
functions on the character list of the string.  Python str slicing and
iteration are per code point, exactly like List Char. -/

/-- Python non-overlapping left-to-right substring replacement,
fuelled by the input length (each step consumes at least one
character, so the fuel never runs out when it starts at the input
length and the pattern is non-empty). -/
def pyReplaceAux (pat rep : List Char) : Nat → List Char → List Char
  | 0, l => l
  | _ + 1, [] => []
  | fuel + 1, c :: rest =>
      if pat.isPrefixOf (c :: rest) then
        rep ++ pyReplaceAux pat rep fuel ((c :: rest).drop pat.length)
      else c :: pyReplaceAux pat rep fuel rest

/-- Python s.replace(pat, rep) for a non-empty pattern. -/
def pyReplace (s pat rep : String) : String :=
  String.mk (pyReplaceAux pat.data rep.data s.data.length s.data)

/-- Python s[:n]. -/
def pyTake (s : String) (n : Nat) : String := String.mk (s.data.take n)

/-- Python s[-n:]: the last n characters of s (all of s when s is
shorter than n, matching the slicing semantics of Python). -/
def pyTakeLast (s : String) (n : Nat) : String :=
  String.mk (s.data.drop (s.data.length - n))

/-- Python sep.join(l). -/
def pyJoin (sep : String) : List String → String
  | [] => ""
  | [x] => x
  | x :: y :: rest => x ++ sep ++ pyJoin sep (y :: rest)

/-- Strict lexicographic comparison of character lists by code point:
exactly the str less-than of Python. -/
def strLtB : List Char → List Char → Bool
  | [], [] => false
  | [], _ :: _ => true
  | _ :: _, [] => false
  | a :: as, b :: bs =>
      if a.toNat < b.toNat then true
      else if b.toNat < a.toNat then false
      else strLtB as bs

/-- Python string less-or-equal: not (b < a). -/
def pyStrLe (a b : String) : Bool := !(strLtB b.data a.data)

/-- Python sorted() on a list of strings (ascending lexicographic
order on code points, stable insertion sort). -/
def pySorted (l : List String) : List String :=
  List.insertionSort (fun a b => pyStrLe a b = true) l

/-! ## make_index_name (src/core/models.py lines 27-30) -/

/-- make_index_name from src/core/models.py.  The Python source
computes the MD5 of the f-string interpolating tablename, index_type
and the sorted field names joined by comma-space, ascii-encoded; then
rebinds tablename to its "data_"- and "-"-free form capped at 12
characters, and returns the f-string concatenating "idx_", the capped
tablename, "_", the first character of index_type and the last 12 hex
digits of the hash. -/
def make_index_name (tablename index_type : String) (fields : List String) : String :=
  let idx_hash :=
    md5Hex (tablename ++ " " ++ index_type ++ " " ++ pyJoin ", " (pySorted fields))
  let tablename := pyTake (pyReplace (pyReplace tablename "data_" "") "-" "") 12
  "idx_" ++ tablename ++ "_" ++ pyTake index_type 1 ++ pyTakeLast idx_hash 12

/-- The table-name truncation, written as the spec describes it:
every "data_" occurrence removed, hyphens removed, capped at 12
characters. -/
def truncatedTableName (t : String) : String :=
  pyTake (pyReplace (pyReplace t "data_" "") "-" "") 12

/-- The string the code actually hashes: table name, index kind and
the sorted field names joined by comma-space, separated by single
spaces. -/
def indexHashContent (t k : String) (fs : List String) : String :=
  t ++ " " ++ k ++ " " ++ pyJoin ", " (pySorted fs)

/-- The index-name formula exactly as claim C6 words it: the
concatenation idx_, truncated table, kind initial and hash suffix
(with no separator between the truncated table name and the kind
initial), where the hash is computed over the string interpolating
the sorted field names joined by single spaces. -/
def indexNameAsClaimedC6 (t k : String) (fs : List String) : String :=
  "idx_" ++ truncatedTableName t ++ pyTake k 1 ++
    pyTakeLast (md5Hex (t ++ " " ++ k ++ " " ++ pyJoin " " (pySorted fs))) 12

/-! ## DataTable generation lifecycle (src/core/models.py lines 456-536)

A DataTable row of one logical Table is modelled by Gen: its primary
key id, its created_at timestamp (an abstract Nat instant) and its
active flag.  A TState is the set of generations of one logical table
plus the set of physical tables that currently exist, keyed by the
owning generation (standing for its unique db_table_name).  Each
Django ORM operation of src/core/models.py is one definition below;
activate and deactivate are single atomic steps, mirroring the
transaction.atomic() block wrapping each of them. -/

structure Gen where
  id : Nat
  createdAt : Nat
  active : Bool
deriving DecidableEq, Repr

structure TState where
  gens : List Gen
  physical : List Nat
deriving DecidableEq, Repr

/-- Persisting instance.active = b for the generation with the given
primary key (instance.save()). -/
def setActive (l : List Gen) (gid : Nat) (b : Bool) : List Gen :=
  l.map fun g => if g.id = gid then { g with active := b } else g

/-- DataTable.delete_data_table: drop the physical table of the generation;
a ProgrammingError (table does not exist) is swallowed, which
is exactly what removing an absent key from the list does. -/
def dropPhysicalTable (st : TState) (gid : Nat) : TState :=
  { st with physical := st.physical.filter (fun i => i ≠ gid) }

/-- DataTableQuerySet.active(): the generations with active=True. -/
def activeGens (l : List Gen) : List Gen := l.filter (fun g => g.active)

/-- DataTableQuerySet.most_recent(): order_by("-created_at").first(),
i.e. the earliest-listed generation of maximal created_at (a stable
descending sort followed by first()). -/
def mostRecent : List Gen → Option Gen
  | [] => none
  | g :: rest =>
      match mostRecent rest with
      | none => some g
      | some m => if g.createdAt < m.createdAt then some m else some g

/-- DataTableQuerySet.get_current_active(): active().most_recent(). -/
def getCurrentActive (st : TState) : Option Gen := mostRecent (activeGens st.gens)

/-- The plain branch of DataTable.deactivate (also what activate
invokes on the previous generation, since activate calls deactivate
with activate_most_recent left at its default False):
self.active = False; self.save(); if drop_table: self.delete_data_table(). -/
def deactivatePlain (st : TState) (gid : Nat) (drop : Bool) : TState :=
  let st1 := { st with gens := setActive st.gens gid false }
  if drop then dropPhysicalTable st1 gid else st1

/-- DataTable.activate(drop_inactive_table): inside one atomic unit,
look up the current active generation of the table, deactivate it if any
(optionally dropping its physical table), then mark self active and
save. -/
def activate (st : TState) (gid : Nat) (dropInactive : Bool) : TState :=
  let st1 :=
    match getCurrentActive st with
    | some prev => deactivatePlain st prev.id dropInactive
    | none => st
  { st1 with gens := setActive st1.gens gid true }

/-- self.active for the stored record with the given primary key. -/
def isActive (st : TState) (gid : Nat) : Bool :=
  match st.gens.find? (fun g => g.id = gid) with
  | some g => g.active
  | none => false

/-- self.table.data_tables.exclude(id=self.id).inactive().most_recent(). -/
def mostRecentOtherInactive (st : TState) (gid : Nat) : Option Gen :=
  mostRecent ((st.gens.filter (fun g => g.id ≠ gid)).filter (fun g => !g.active))

/-- DataTable.deactivate(drop_table, activate_most_recent): if
activate_most_recent and self.active, activate the most recent other
inactive generation instead and return early when one exists;
otherwise fall through to the plain deactivation. -/
def deactivate (st : TState) (gid : Nat) (drop amr : Bool) : TState :=
  if amr && isActive st gid then
    match mostRecentOtherInactive st gid with
    | some m => activate st m.id drop
    | none => deactivatePlain st gid drop
  else deactivatePlain st gid drop

/-- The RuntimeError message raised by
prevent_active_data_table_deletion (the per-instance prefix of the
Python message is abstracted away). -/
def activeDeletionError : String :=
  "is active and can not be deleted. Deactivate it first."

/-- Deleting a DataTable record: Django runs the pre_delete signal
(prevent_active_data_table_deletion, which raises for an active
generation, aborting before any change), then deletes the row, then
runs the post_delete signal (clean_associated_data_base_table, which
drops the physical table). -/
def deleteDataTableRecord (st : TState) (g : Gen) : Except String TState :=
  if g.active then Except.error activeDeletionError
  else
    Except.ok (dropPhysicalTable { st with gens := st.gens.filter (fun x => x.id ≠ g.id) } g.id)

/-- The state a caller observes after attempting the deletion: the
new state on success, the untouched original state when the
pre_delete guard raised. -/
def deleteAttempt (st : TState) (g : Gen) : TState :=
  match deleteDataTableRecord st g with
  | Except.ok st1 => st1
  | Except.error _ => st

/-- The ids of the stored generations. -/
def genIds (l : List Gen) : List Nat := l.map (fun g => g.id)

/-- The number of active generations. -/
def countActive (l : List Gen) : Nat := (activeGens l).length

/-- A sequence of activate calls (target id, drop_inactive_table
flag), applied in order. -/
def runActivations (st : TState) (calls : List (Nat × Bool)) : TState :=
  calls.foldl (fun s c => activate s c.1 c.2) st

/-- The other-inactive candidate pool deactivate picks from. -/
def otherInactive (st : TState) (gid : Nat) : List Gen :=
  (st.gens.filter (fun g => g.id ≠ gid)).filter (fun g => !g.active)

/-! ## Query composition layer (DatasetTableModelQuerySet, lines 67-149)

A query set over a synthesized model is modelled by the parts of its
state that search and apply_ordering read and write: the declared
declared extra["search"] / extra["ordering"] / extra["filtering"]
extra field lists of the model, the full-text annotate+filter pair (if applied, with the
SearchQuery conjunction represented by its set of terms — Python
builds it by folding the AND connective over set(words), so the set
of terms is exactly its content; None stands for the query = None
that the code passes when the loop body never runs), and the ordering
expressions attached so far via qs.query.add_ordering. -/

structure DQS where
  search_fields : List String
  ordering_fields : List String
  filtering_fields : List String
  searchFilter : Option (Option (Finset String)) := none
  attachedOrdering : List String := []
deriving DecidableEq

/-- Python s.split() (no separator): split on runs of whitespace,
dropping empty pieces. -/
def splitWsAux : List Char → List Char → List String
  | [], acc => if acc.isEmpty then [] else [String.mk acc.reverse]
  | c :: rest, acc =>
      if c.isWhitespace then
        if acc.isEmpty then splitWsAux rest []
        else String.mk acc.reverse :: splitWsAux rest []
      else splitWsAux rest (c :: acc)

/-- Python search_query.split(). -/
def pySplitWs (s : String) : List String := splitWsAux s.data []

/-- The SearchQuery conjunction the loop builds over set(words):
None when the loop body never ran (no words), otherwise the
conjunction of one SearchQuery per distinct word, represented by the
set of words. -/
def searchTerms (raw : String) : Option (Finset String) :=
  let words := pySplitWs raw
  if words.isEmpty then none else some words.toFinset

/-- DatasetTableModelQuerySet.search: when the raw query string is
truthy and extra["search"] is non-empty, annotate search_rank, filter
by the built query and append "-search_rank" to the attached ordering
(qs.query.add_ordering appends instead of overwriting); otherwise
return the query set unchanged. -/
def search (qs : DQS) (search_query : String) : DQS :=
  if search_query ≠ "" ∧ qs.search_fields ≠ [] then
    { qs with
        searchFilter := some (searchTerms search_query),
        attachedOrdering := qs.attachedOrdering ++ ["-search_rank"] }
  else qs

/-- Python s.strip(). -/
def pyTrim (s : String) : String :=
  String.mk (((s.data.dropWhile Char.isWhitespace).reverse.dropWhile Char.isWhitespace).reverse)

/-- Python s.lower(). -/
def pyLower (s : String) : String := String.mk (s.data.map Char.toLower)

/-- field.replace("-", "").strip().lower(), the cleaning applied to
each allowed (declared) field name. -/
def cleanAllowedField (f : String) : String := pyLower (pyTrim (pyReplace f "-" ""))

/-- DatasetTableModelQuerySet.apply_ordering: whitelist the requested
fields (dash-stripped) against the cleaned union of extra["ordering"]
and extra["filtering"] (the Python set() only de-duplicates, which
dedup models; iteration order cannot matter because the cleaned list
is only used for membership tests), then append either the
whitelisted request or, when it is empty, the model ordering, to the
ordering already attached to the query. -/
def apply_ordering (qs : DQS) (query : List String) : DQS :=
  let allowed_fields := (qs.ordering_fields ++ qs.filtering_fields).dedup
  let clean_allowed := allowed_fields.map cleanAllowedField
  let ordering_query := query.filter (fun field => pyReplace field "-" "" ∈ clean_allowed)
  if ordering_query ≠ [] then
    { qs with attachedOrdering := qs.attachedOrdering ++ ordering_query }
  else if qs.ordering_fields ≠ [] then
    { qs with attachedOrdering := qs.attachedOrdering ++ qs.ordering_fields }
  else qs

/-- The whitelist of claim C8, written as the claim words it: keep
the requested fields whose base (direction-prefix-stripped) name lies
in the union of the declared ordering and filtering lists (compared
after the cleaning the code applies to the declared names). -/
def orderingWhitelist (qs : DQS) (query : List String) : List String :=
  query.filter (fun field =>
    pyReplace field "-" "" ∈ (qs.ordering_fields ++ qs.filtering_fields).map cleanAllowedField)

/-- apply_ordering as claim C8 describes it: append the whitelisted
request when non-empty, otherwise apply the declared default
ordering. -/
def applyOrderingSpec (qs : DQS) (query : List String) : DQS :=
  let wl := orderingWhitelist qs query
  if wl ≠ [] then { qs with attachedOrdering := qs.attachedOrdering ++ wl }
  else { qs with attachedOrdering := qs.attachedOrdering ++ qs.ordering_fields }

/-- The state DatasetTableModelQuerySet.count reads: the cached
_count, whether the query has a where clause, the outcome of the
planner-statistics read (some v when SELECT reltuples succeeded and
fetched a row with value v; none when it raised or no row came back,
which the bare except catches), and the exact count that
super().count() would return. -/
structure CountCtx where
  cached : Option Int := none
  hasWhere : Bool
  plannerStats : Option Int
  exactCount : Nat
deriving DecidableEq, Repr

/-- DatasetTableModelQuerySet.count. -/
def count (c : CountCtx) : Int :=
  match c.cached with
  | some v => v
  | none =>
      if !c.hasWhere then
        match c.plannerStats with
        | some v => v
        | none => (c.exactCount : Int)
      else (c.exactCount : Int)

/-! ## Order lemmas for the Python string comparison -/

theorem strLtB_asymm : ∀ a b : List Char, strLtB a b = true → strLtB b a = false := by
  intro a
  induction a with
  | nil => intro b h; cases b <;> simp [strLtB] at h ⊢
  | cons x xs ih =>
    intro b h
    cases b with
    | nil => simp [strLtB] at h
    | cons y ys =>
      simp only [strLtB] at h ⊢
      by_cases h1 : x.toNat < y.toNat
      · have h2 : ¬ y.toNat < x.toNat := by omega
        simp [h1, h2]
      · by_cases h2 : y.toNat < x.toNat
        · simp [h1, h2] at h
        · simp [h1, h2] at h ⊢
          exact ih ys h

theorem strLtB_conn : ∀ a b : List Char, strLtB a b = false → strLtB b a = false → a = b := by
  intro a
  induction a with
  | nil =>
    intro b h1 h2
    cases b with
    | nil => rfl
    | cons y ys => simp [strLtB] at h1
  | cons x xs ih =>
    intro b h1 h2
    cases b with
    | nil => simp [strLtB] at h2
    | cons y ys =>
      simp only [strLtB] at h1 h2
      by_cases hxy : x.toNat < y.toNat
      · simp [hxy] at h1
      · by_cases hyx : y.toNat < x.toNat
        · simp [hxy, hyx] at h2
        · simp [hxy, hyx] at h1 h2
          have e1 : x.toNat = x.val.toNat := rfl
          have e2 : y.toNat = y.val.toNat := rfl
          have hx : x = y := Char.ext (UInt32.toNat.inj (by omega))
          rw [hx, ih ys h1 h2]

theorem strLtB_trans_false :
    ∀ a b c : List Char, strLtB a b = false → strLtB b c = false → strLtB a c = false := by
  intro a
  induction a with
  | nil =>
    intro b c h1 h2
    cases b with
    | nil => cases c with
      | nil => rfl
      | cons z zs => simp [strLtB] at h2
    | cons y ys => simp [strLtB] at h1
  | cons x xs ih =>
    intro b c h1 h2
    cases b with
    | nil =>
      cases c with
      | nil => rfl
      | cons z zs => simp [strLtB] at h2
    | cons y ys =>
      cases c with
      | nil => rfl
      | cons z zs =>
        simp only [strLtB] at h1 h2 ⊢
        by_cases hxy : x.toNat < y.toNat
        · simp [hxy] at h1
        · by_cases hyz : y.toNat < z.toNat
          · simp [hyz] at h2
          · have hxz : ¬ x.toNat < z.toNat := by omega
            simp only [hxy, hyz, hxz, if_false, if_neg] at h1 h2 ⊢
            by_cases hzx : z.toNat < x.toNat
            · simp [hzx]
            · have hzy : ¬ z.toNat < y.toNat := by omega
              have hyx : ¬ y.toNat < x.toNat := by omega
              simp only [hyx, hzy, if_neg, if_false] at h1 h2
              simp only [hzx, if_neg, if_false]
              exact ih ys zs h1 h2

instance : IsTotal String (fun a b => pyStrLe a b = true) where
  total a b := by
    simp only [pyStrLe, Bool.not_eq_true']
    rcases h : strLtB b.data a.data with hf | ht
    · exact Or.inl rfl
    · exact Or.inr (strLtB_asymm b.data a.data h)

instance : IsTrans String (fun a b => pyStrLe a b = true) where
  trans a b c h1 h2 := by
    simp only [pyStrLe, Bool.not_eq_true'] at h1 h2 ⊢
    exact strLtB_trans_false c.data b.data a.data h2 h1

instance : IsAntisymm String (fun a b => pyStrLe a b = true) where
  antisymm a b h1 h2 := by
    simp only [pyStrLe, Bool.not_eq_true'] at h1 h2
    exact congrArg String.mk (strLtB_conn a.data b.data h2 h1)

/-- Sorting is invariant under permutation of the input: the sorted
output of two permuted lists is identical. -/
theorem pySorted_perm {l₁ l₂ : List String} (h : l₁.Perm l₂) : pySorted l₁ = pySorted l₂ :=
  List.eq_of_perm_of_sorted
    (((List.perm_insertionSort _ l₁).trans h).trans (List.perm_insertionSort _ l₂).symm)
    (List.sorted_insertionSort _ l₁) (List.sorted_insertionSort _ l₂)

/-! ## Length facts about the digest -/

theorem leBytes_length : ∀ (k v : Nat), (leBytes k v).length = k := by
  intro k
  induction k with
  | zero => intro v; rfl
  | succ n ih => intro v; simp [leBytes, ih]

theorem md5Digest_length (msg : List Nat) : (md5Digest msg).length = 16 := by
  simp [md5Digest, leBytes_length]

theorem flatten_byteToHex_length :
    ∀ l : List Nat, ((l.map byteToHex).flatten).length = 2 * l.length := by
  intro l
  induction l with
  | nil => rfl
  | cons b rest ih => simp [byteToHex, ih]; omega

theorem md5Hex_length (s : String) : (md5Hex s).length = 32 := by
  show (((md5Digest (s.data.map Char.toNat)).map byteToHex).flatten).length = 32
  rw [flatten_byteToHex_length, md5Digest_length]

/-- Sanity check of the MD5 implementation against the RFC 1321 test
vector for the empty message. -/
theorem md5Hex_empty : md5Hex "" = "d41d8cd98f00b204e9800998ecf8427e" := by
  decide

/-- Sanity check of the MD5 implementation against the RFC 1321 test
vector for "abc". -/
theorem md5Hex_abc : md5Hex "abc" = "900150983cd24fb0d6963f7d28e17f72" := by
  decide

/-! ## Claims C6 and C7 (make_index_name) -/

/-- C6 counterexample: at tablename "data_mytable", kind "order" and
fields ["b", "a"], the result of the code differs from the claimed formula
(the code hashes the fields joined by comma-space, not space, and
puts an underscore between the truncated table name and the kind
initial). -/
theorem claim_C6_counterexample :
    make_index_name "data_mytable" "order" ["b", "a"] ≠
      indexNameAsClaimedC6 "data_mytable" "order" ["b", "a"] := by
  decide

/-- C6 (amended): make_index_name returns the concatenation
idx_<truncated_table>_<kind_initial><hash_suffix>, where the hash
suffix is the fixed-width (12-character) suffix of the MD5 hex digest
of "{table_name} {index_kind} {sorted, comma-space-joined
field_names}", and the truncated table name is the table name with
every "data_" occurrence removed, hyphens removed, and length capped
at 12.  Fidelity note: the Python code ascii-encodes the hashed
string, so the embedding is faithful for ASCII inputs. -/
theorem claim_C6 (t k : String) (fs : List String) :
    make_index_name t k fs =
      "idx_" ++ truncatedTableName t ++ "_" ++ pyTake k 1 ++
        pyTakeLast (md5Hex (indexHashContent t k fs)) 12 ∧
    (pyTakeLast (md5Hex (indexHashContent t k fs)) 12).length = 12 := by
  constructor
  · rfl
  · show ((md5Hex (indexHashContent t k fs)).data.drop
      ((md5Hex (indexHashContent t k fs)).data.length - 12)).length = 12
    have h32 : (md5Hex (indexHashContent t k fs)).data.length = 32 :=
      md5Hex_length (indexHashContent t k fs)
    rw [List.length_drop, h32]

/-- C7: make_index_name is a deterministic pure function of its
inputs (definitionally, in this embedding), and is invariant under
permutation of the field-name list, because the fields are sorted
before hashing. -/
theorem claim_C7 (t k : String) (fs₁ fs₂ : List String) (h : fs₁.Perm fs₂) :
    make_index_name t k fs₁ = make_index_name t k fs₂ := by
  unfold make_index_name
  rw [pySorted_perm h]

/-- Witness for C7 at the shape of the example in the spec: swapping
a two-element field list leaves the index name unchanged. -/
theorem claim_C7_witness :
    make_index_name "t" "order" ["a", "b"] = make_index_name "t" "order" ["b", "a"] :=
  claim_C7 "t" "order" ["a", "b"] ["b", "a"] (List.Perm.swap "b" "a" [])

/-! ## Lifecycle lemmas -/

theorem mostRecent_eq_none : ∀ {l : List Gen}, mostRecent l = none ↔ l = [] := by
  intro l
  cases l with
  | nil => simp [mostRecent]
  | cons g rest =>
    simp only [mostRecent]
    cases h : mostRecent rest with
    | none => simp
    | some m =>
      by_cases hlt : g.createdAt < m.createdAt <;> simp [hlt]

theorem mostRecent_mem : ∀ {l : List Gen} {m : Gen}, mostRecent l = some m → m ∈ l := by
  intro l
  induction l with
  | nil => intro m h; simp [mostRecent] at h
  | cons g rest ih =>
    intro m h
    simp only [mostRecent] at h
    cases hr : mostRecent rest with
    | none =>
      rw [hr] at h
      simp at h
      simp [h]
    | some k =>
      rw [hr] at h
      by_cases hlt : g.createdAt < k.createdAt
      · simp [hlt] at h
        subst h
        exact List.mem_cons_of_mem g (ih hr)
      · simp [hlt] at h
        simp [h]

theorem mostRecent_max : ∀ {l : List Gen} {m : Gen}, mostRecent l = some m →
    ∀ x ∈ l, x.createdAt ≤ m.createdAt := by
  intro l
  induction l with
  | nil => intro m h; simp [mostRecent] at h
  | cons g rest ih =>
    intro m h x hx
    simp only [mostRecent] at h
    cases hr : mostRecent rest with
    | none =>
      rw [hr] at h
      simp at h
      have hrest : rest = [] := mostRecent_eq_none.mp hr
      subst hrest
      simp at hx
      simp [hx, h]
    | some k =>
      rw [hr] at h
      by_cases hlt : g.createdAt < k.createdAt
      · simp [hlt] at h
        subst h
        rcases List.mem_cons.mp hx with rfl | hxr
        · omega
        · exact ih hr x hxr
      · simp [hlt] at h
        subst h
        rcases List.mem_cons.mp hx with rfl | hxr
        · exact le_refl _
        · have := ih hr x hxr
          omega

theorem genIds_setActive (l : List Gen) (gid : Nat) (b : Bool) :
    genIds (setActive l gid b) = genIds l := by
  induction l with
  | nil => rfl
  | cons g rest ih =>
    simp only [genIds, setActive, List.map_cons] at ih ⊢
    by_cases h : g.id = gid <;> simp [h, ih]

theorem setActive_not_mem (l : List Gen) (gid : Nat) (b : Bool)
    (h : gid ∉ genIds l) : setActive l gid b = l := by
  induction l with
  | nil => rfl
  | cons g rest ih =>
    simp only [genIds, List.map_cons, List.mem_cons, not_or] at h
    have hrest : setActive rest gid b = rest := ih (by simpa [genIds] using h.2)
    simp only [setActive, List.map_cons] at hrest ⊢
    rw [if_neg (fun hc => h.1 hc.symm), hrest]

theorem activeGens_setActive_false (l : List Gen) (p : Gen)
    (h : activeGens l = [p]) : activeGens (setActive l p.id false) = [] := by
  have hmem : ∀ g ∈ l, g.active = true → g = p := by
    intro g hg ha
    have hgf : g ∈ activeGens l := by
      simp [activeGens, List.mem_filter, hg, ha]
    rw [h] at hgf
    simpa using hgf
  clear h
  revert hmem
  induction l with
  | nil => intro _; rfl
  | cons g rest ih =>
    intro hmem
    have hrest := ih (fun x hx ha => hmem x (List.mem_cons_of_mem g hx) ha)
    simp only [setActive, List.map_cons]
    by_cases hid : g.id = p.id
    · rw [if_pos hid]
      simp only [activeGens, List.filter_cons, Bool.false_eq_true, if_neg]
      simpa [activeGens, setActive] using hrest
    · rw [if_neg hid]
      have hga : g.active = false := by
        cases hga : g.active
        · rfl
        · exact absurd (congrArg Gen.id (hmem g (List.mem_cons_self g rest) hga)) hid
      simp only [activeGens, List.filter_cons, hga, Bool.false_eq_true, if_neg]
      simpa [activeGens, setActive] using hrest

theorem activeGens_setActive_true (l : List Gen) (m : Gen)
    (hall : ∀ g ∈ l, g.active = false) (hnd : (genIds l).Nodup) (hm : m ∈ l) :
    activeGens (setActive l m.id true) = [{ m with active := true }] := by
  revert hall hnd hm
  induction l with
  | nil => intro _ _ hm; simp at hm
  | cons g rest ih =>
    intro hall hnd hm
    simp only [genIds, List.map_cons, List.nodup_cons] at hnd
    simp only [setActive, List.map_cons]
    by_cases hid : g.id = m.id
    · have hgm : g = m := by
        rcases List.mem_cons.mp hm with rfl | hmr
        · rfl
        · exfalso
          have hin : m.id ∈ List.map (fun x => x.id) rest :=
            List.mem_map_of_mem (fun x => x.id) hmr
          rw [← hid] at hin
          exact hnd.1 hin
      rw [if_pos hid]
      have hnotin : m.id ∉ genIds rest := by
        simp only [genIds]
        rw [← hid]
        exact hnd.1
      rw [show List.map (fun x => if x.id = m.id then { x with active := true } else x) rest =
            setActive rest m.id true from rfl,
          setActive_not_mem rest m.id true hnotin]
      have hrest_nil : activeGens rest = [] := by
        simp only [activeGens]
        rw [List.filter_eq_nil_iff]
        intro x hx
        simp [hall x (List.mem_cons_of_mem g hx)]
      simp only [activeGens, List.filter_cons] at hrest_nil ⊢
      simp [hgm, hrest_nil]
    · have hmr : m ∈ rest := by
        rcases List.mem_cons.mp hm with rfl | hmr
        · exact absurd rfl hid
        · exact hmr
      have hrest := ih (fun x hx => hall x (List.mem_cons_of_mem g hx)) hnd.2 hmr
      rw [if_neg hid]
      simp only [activeGens, List.filter_cons, hall g (List.mem_cons_self g rest),
        Bool.false_eq_true, if_neg]
      simpa [activeGens, setActive] using hrest

theorem countActive_setActive_true (l : List Gen) (gid : Nat)
    (hall : ∀ g ∈ l, g.active = false) (hnd : (genIds l).Nodup)
    (hmem : gid ∈ genIds l) : countActive (setActive l gid true) = 1 := by
  simp only [genIds, List.mem_map] at hmem
  obtain ⟨m, hm, rfl⟩ := hmem
  rw [countActive, activeGens_setActive_true l m hall hnd hm]
  rfl

theorem deactivatePlain_gens (st : TState) (gid : Nat) (drop : Bool) :
    (deactivatePlain st gid drop).gens = setActive st.gens gid false := by
  cases drop <;> simp [deactivatePlain, dropPhysicalTable]

theorem countActive_eq_zero (l : List Gen) (h : ∀ g ∈ l, g.active = false) :
    countActive l = 0 := by
  simp only [countActive, activeGens, List.length_eq_zero]
  rw [List.filter_eq_nil_iff]
  intro x hx
  simp [h x hx]

theorem all_inactive_of_activeGens_nil (l : List Gen) (h : activeGens l = []) :
    ∀ g ∈ l, g.active = false := by
  intro g hg
  by_contra hc
  have : g ∈ activeGens l := by
    simp [activeGens, List.mem_filter, hg]
    cases hga : g.active
    · exact absurd hga hc
    · rfl
  rw [h] at this
  simp at this

theorem activate_countActive (st : TState) (gid : Nat) (d : Bool)
    (hnd : (genIds st.gens).Nodup) (hmem : gid ∈ genIds st.gens)
    (hle : countActive st.gens ≤ 1) :
    countActive (activate st gid d).gens = 1 := by
  unfold activate
  cases hga : getCurrentActive st with
  | none =>
    have hnil : activeGens st.gens = [] := mostRecent_eq_none.mp hga
    exact countActive_setActive_true st.gens gid
      (all_inactive_of_activeGens_nil st.gens hnil) hnd hmem
  | some prev =>
    have hpm : prev ∈ activeGens st.gens := mostRecent_mem hga
    have hsingle : activeGens st.gens = [prev] := by
      cases hl : activeGens st.gens with
      | nil => rw [hl] at hpm; simp at hpm
      | cons a rest =>
        cases rest with
        | nil =>
          rw [hl] at hpm
          simp at hpm
          rw [hpm]
        | cons b rest2 =>
          exfalso
          have : countActive st.gens = (activeGens st.gens).length := rfl
          rw [hl] at this
          simp at this
          omega
    have hz : activeGens (setActive st.gens prev.id false) = [] :=
      activeGens_setActive_false st.gens prev hsingle
    simp only [deactivatePlain_gens]
    exact countActive_setActive_true (setActive st.gens prev.id false) gid
      (all_inactive_of_activeGens_nil _ hz)
      (by rw [genIds_setActive]; exact hnd)
      (by rw [genIds_setActive]; exact hmem)

theorem activate_genIds (st : TState) (gid : Nat) (d : Bool) :
    genIds (activate st gid d).gens = genIds st.gens := by
  unfold activate
  cases getCurrentActive st with
  | none => simp [genIds_setActive]
  | some prev => simp [deactivatePlain_gens, genIds_setActive]

theorem runActivations_cons (st : TState) (c : Nat × Bool) (calls : List (Nat × Bool)) :
    runActivations st (c :: calls) = runActivations (activate st c.1 c.2) calls := rfl

theorem runActivations_one (calls : List (Nat × Bool)) : ∀ st : TState,
    (genIds st.gens).Nodup → (∀ c ∈ calls, c.1 ∈ genIds st.gens) →
    countActive st.gens ≤ 1 → calls ≠ [] →
    countActive (runActivations st calls).gens = 1 := by
  induction calls with
  | nil => intro st _ _ _ h; exact absurd rfl h
  | cons c rest ih =>
    intro st hnd hmem hle _
    rw [runActivations_cons]
    have h1 : countActive (activate st c.1 c.2).gens = 1 :=
      activate_countActive st c.1 c.2 hnd (hmem c (List.mem_cons_self c rest)) hle
    by_cases hr : rest = []
    · subst hr
      simpa [runActivations] using h1
    · exact ih (activate st c.1 c.2)
        (by rw [activate_genIds]; exact hnd)
        (fun x hx => by rw [activate_genIds]; exact hmem x (List.mem_cons_of_mem c hx))
        (by omega) hr

theorem find_id_of_nodup : ∀ (l : List Gen) (g : Gen), (genIds l).Nodup → g ∈ l →
    l.find? (fun x => x.id = g.id) = some g := by
  intro l
  induction l with
  | nil => intro g _ h; simp at h
  | cons a rest ih =>
    intro g hnd hg
    simp only [genIds, List.map_cons, List.nodup_cons] at hnd
    by_cases hid : a.id = g.id
    · have hag : a = g := by
        rcases List.mem_cons.mp hg with rfl | hgr
        · rfl
        · exfalso
          have hin : g.id ∈ List.map (fun x => x.id) rest :=
            List.mem_map_of_mem (fun x => x.id) hgr
          rw [← hid] at hin
          exact hnd.1 hin
      rw [List.find?_cons_of_pos _ (by simp [hid])]
      rw [hag]
    · rw [List.find?_cons_of_neg _ (by simp [hid])]
      have hgr : g ∈ rest := by
        rcases List.mem_cons.mp hg with rfl | hgr
        · exact absurd rfl hid
        · exact hgr
      exact ih g hnd.2 hgr

theorem isActive_eq (st : TState) (g : Gen)
    (hnd : (genIds st.gens).Nodup) (hg : g ∈ st.gens) :
    isActive st g.id = g.active := by
  simp [isActive, find_id_of_nodup st.gens g hnd hg]

/-! ## Claim C1: single active generation across activate sequences -/

/-- C1: starting from a logical table with distinct generation ids
and zero active generations (the state before the first ever
activation), after every prefix of any sequence of activate calls on
the generations of the table there is exactly one active generation —
except after the empty prefix, where there are zero.  Each activate
call is one atomic step (the transaction.atomic block), so these
post-states are the only observable states: no state with two (or,
after the first call, zero) active generations is observable. -/
theorem claim_C1 (st : TState) (calls pre suf : List (Nat × Bool))
    (hnd : (genIds st.gens).Nodup)
    (hzero : countActive st.gens = 0)
    (hmem : ∀ c ∈ calls, c.1 ∈ genIds st.gens)
    (hsplit : calls = pre ++ suf) :
    countActive (runActivations st pre).gens = if pre.isEmpty then 0 else 1 := by
  cases pre with
  | nil => simpa [runActivations] using hzero
  | cons c rest =>
    simp only [List.isEmpty_cons, if_neg, Bool.false_eq_true]
    apply runActivations_one (c :: rest) st hnd ?_ (by omega) (by simp)
    intro x hx
    exact hmem x (hsplit ▸ List.mem_append_left suf hx)

/-- Witness for C1: a two-generation table, both initially inactive,
activating generation 1 and then generation 2: after this non-empty
prefix of calls exactly one generation is active. -/
theorem claim_C1_witness :
    countActive (runActivations
      { gens := [{ id := 1, createdAt := 1, active := false },
                 { id := 2, createdAt := 2, active := false }],
        physical := [1, 2] }
      [(1, false), (2, true)]).gens =
    if ([(1, false), (2, true)] : List (Nat × Bool)).isEmpty then 0 else 1 :=
  claim_C1
    { gens := [{ id := 1, createdAt := 1, active := false },
               { id := 2, createdAt := 2, active := false }],
      physical := [1, 2] }
    [(1, false), (2, true)] [(1, false), (2, true)] []
    (by decide) (by decide) (by decide) (by decide)

/-! ## Claim C2: active generations can not be deleted -/

/-- C2: deleting a DataTable whose active flag is set always fails
with the active-generation-deletion error raised by the pre_delete
guard, and the observed state after the failed attempt is the
original one — the record is still stored, the physical table still
exists, and the post_delete cleanup never ran. -/
theorem claim_C2 (st : TState) (g : Gen) (h : g.active = true) :
    deleteDataTableRecord st g = Except.error activeDeletionError ∧
    deleteAttempt st g = st := by
  constructor <;> simp [deleteDataTableRecord, deleteAttempt, h]

/-- Witness for C2: deleting the single active generation of a
one-generation table errors and leaves the state unchanged. -/
theorem claim_C2_witness :
    deleteDataTableRecord
      { gens := [{ id := 1, createdAt := 1, active := true }], physical := [1] }
      { id := 1, createdAt := 1, active := true } =
      Except.error activeDeletionError ∧
    deleteAttempt
      { gens := [{ id := 1, createdAt := 1, active := true }], physical := [1] }
      { id := 1, createdAt := 1, active := true } =
      { gens := [{ id := 1, createdAt := 1, active := true }], physical := [1] } :=
  claim_C2
    { gens := [{ id := 1, createdAt := 1, active := true }], physical := [1] }
    { id := 1, createdAt := 1, active := true } rfl

/-! ## Claims C5 and C10: deactivate with activate_most_recent -/

theorem mostRecentOtherInactive_eq (st : TState) (gid : Nat) :
    mostRecentOtherInactive st gid = mostRecent (otherInactive st gid) := rfl

theorem otherInactive_spec (st : TState) (gid : Nat) (m : Gen)
    (hm : m ∈ otherInactive st gid) :
    m ∈ st.gens ∧ m.id ≠ gid ∧ m.active = false := by
  simp only [otherInactive, List.mem_filter] at hm
  refine ⟨hm.1.1, ?_, ?_⟩
  · simpa using hm.1.2
  · simpa using hm.2

/-- C5: when generation g is the (single) active generation of its
logical table and at least one other inactive generation exists,
deactivate(g, drop, activate_most_recent=true) returns early with the
recursive activation of the most recent other inactive generation m —
the plain state change on g is never reached — and afterwards m is
the single active generation of the table; m is indeed the most
recently created among the other inactive generations. -/
theorem claim_C5 (st : TState) (g m : Gen) (drop : Bool)
    (hnd : (genIds st.gens).Nodup)
    (hact : activeGens st.gens = [g])
    (hm : mostRecentOtherInactive st g.id = some m) :
    deactivate st g.id drop true = activate st m.id drop ∧
    genIds (activeGens (deactivate st g.id drop true).gens) = [m.id] ∧
    m ∈ otherInactive st g.id ∧
    (∀ x ∈ otherInactive st g.id, x.createdAt ≤ m.createdAt) := by
  have hg2 : g ∈ activeGens st.gens := by rw [hact]; exact List.mem_singleton_self g
  have hgmem : g ∈ st.gens := (List.mem_filter.mp hg2).1
  have hgact : g.active = true := by simpa using (List.mem_filter.mp hg2).2
  have hia : isActive st g.id = true := by rw [isActive_eq st g hnd hgmem]; exact hgact
  have hmo : m ∈ otherInactive st g.id :=
    mostRecent_mem (mostRecentOtherInactive_eq st g.id ▸ hm)
  obtain ⟨hmmem, hmid, hminact⟩ := otherInactive_spec st g.id m hmo
  have heq : deactivate st g.id drop true = activate st m.id drop := by
    simp [deactivate, hia, hm]
  refine ⟨heq, ?_, hmo, mostRecent_max (mostRecentOtherInactive_eq st g.id ▸ hm)⟩
  rw [heq]
  unfold activate
  have hga : getCurrentActive st = some g := by
    unfold getCurrentActive
    rw [hact]
    rfl
  rw [hga]
  simp only [deactivatePlain_gens]
  have hz : activeGens (setActive st.gens g.id false) = [] :=
    activeGens_setActive_false st.gens g hact
  have hall := all_inactive_of_activeGens_nil _ hz
  have hnd2 : (genIds (setActive st.gens g.id false)).Nodup := by
    rw [genIds_setActive]; exact hnd
  have hm_in2 : m ∈ setActive st.gens g.id false := by
    have hf : (fun x => if x.id = g.id then { x with active := false } else x) m = m :=
      if_neg hmid
    have := List.mem_map_of_mem
      (fun x => if x.id = g.id then { x with active := false } else x) hmmem
    rw [hf] at this
    exact this
  rw [activeGens_setActive_true _ m hall hnd2 hm_in2]
  rfl

/-- Witness for C5: a table with active generation 1 and two other
inactive generations 2 (newest) and 3; deactivating generation 1 with
activate_most_recent activates generation 2 and leaves it the single
active generation. -/
theorem claim_C5_witness :
    deactivate
      { gens := [{ id := 1, createdAt := 10, active := true },
                 { id := 2, createdAt := 20, active := false },
                 { id := 3, createdAt := 5, active := false }],
        physical := [1, 2, 3] } 1 false true =
      activate
        { gens := [{ id := 1, createdAt := 10, active := true },
                   { id := 2, createdAt := 20, active := false },
                   { id := 3, createdAt := 5, active := false }],
          physical := [1, 2, 3] } 2 false ∧
    genIds (activeGens (deactivate
      { gens := [{ id := 1, createdAt := 10, active := true },
                 { id := 2, createdAt := 20, active := false },
                 { id := 3, createdAt := 5, active := false }],
        physical := [1, 2, 3] } 1 false true).gens) = [2] ∧
    { id := 2, createdAt := 20, active := false } ∈ otherInactive
      { gens := [{ id := 1, createdAt := 10, active := true },
                 { id := 2, createdAt := 20, active := false },
                 { id := 3, createdAt := 5, active := false }],
        physical := [1, 2, 3] } 1 ∧
    (∀ x ∈ otherInactive
      { gens := [{ id := 1, createdAt := 10, active := true },
                 { id := 2, createdAt := 20, active := false },
                 { id := 3, createdAt := 5, active := false }],
        physical := [1, 2, 3] } 1,
      x.createdAt ≤ ({ id := 2, createdAt := 20, active := false } : Gen).createdAt) :=
  claim_C5
    { gens := [{ id := 1, createdAt := 10, active := true },
               { id := 2, createdAt := 20, active := false },
               { id := 3, createdAt := 5, active := false }],
      physical := [1, 2, 3] }
    { id := 1, createdAt := 10, active := true }
    { id := 2, createdAt := 20, active := false }
    false (by decide) (by decide) (by decide)

/-- C10: when generation g is the (single) active generation and no
other inactive generation exists, deactivate(g, drop,
activate_most_recent=true) falls through to the plain deactivation:
g is marked inactive (and its physical table dropped when requested),
leaving the logical table with zero active generations even though an
activation had already succeeded. -/
theorem claim_C10 (st : TState) (g : Gen) (drop : Bool)
    (hnd : (genIds st.gens).Nodup)
    (hact : activeGens st.gens = [g])
    (hnone : mostRecentOtherInactive st g.id = none) :
    deactivate st g.id drop true = deactivatePlain st g.id drop ∧
    countActive (deactivate st g.id drop true).gens = 0 ∧
    (drop = true → g.id ∉ (deactivate st g.id drop true).physical) := by
  have hg2 : g ∈ activeGens st.gens := by rw [hact]; exact List.mem_singleton_self g
  have hgmem : g ∈ st.gens := (List.mem_filter.mp hg2).1
  have hgact : g.active = true := by simpa using (List.mem_filter.mp hg2).2
  have hia : isActive st g.id = true := by rw [isActive_eq st g hnd hgmem]; exact hgact
  have heq : deactivate st g.id drop true = deactivatePlain st g.id drop := by
    simp [deactivate, hia, hnone]
  refine ⟨heq, ?_, ?_⟩
  · rw [heq, countActive, deactivatePlain_gens,
      activeGens_setActive_false st.gens g hact]
    rfl
  · intro hdrop
    subst hdrop
    rw [heq]
    simp [deactivatePlain, dropPhysicalTable]

/-- Witness for C10: a table whose only generation is active;
deactivating it with activate_most_recent and drop_table leaves zero
active generations and drops its physical table. -/
theorem claim_C10_witness :
    deactivate
      { gens := [{ id := 1, createdAt := 10, active := true }], physical := [1] }
      1 true true =
      deactivatePlain
        { gens := [{ id := 1, createdAt := 10, active := true }], physical := [1] }
        1 true ∧
    countActive (deactivate
      { gens := [{ id := 1, createdAt := 10, active := true }], physical := [1] }
      1 true true).gens = 0 ∧
    (true = true → (1 : Nat) ∉ (deactivate
      { gens := [{ id := 1, createdAt := 10, active := true }], physical := [1] }
      1 true true).physical) :=
  claim_C10
    { gens := [{ id := 1, createdAt := 10, active := true }], physical := [1] }
    { id := 1, createdAt := 10, active := true }
    true (by decide) (by decide) (by decide)

/-! ## Claim C3: the count fallback -/

/-- C3 counterexample: an unfiltered query set whose planner
statistics read succeeds and yields -1 (as PostgreSQL reports for a
never-analyzed table) makes count() return -1 itself, not the exact
row count of 5: the code only falls back on an exception, it never
inspects the fetched value. -/
theorem claim_C3_counterexample :
    count { cached := none, hasWhere := false, plannerStats := some (-1), exactCount := 5 } = -1 ∧
    ({ cached := none, hasWhere := false, plannerStats := some (-1), exactCount := 5 } :
      CountCtx).exactCount = 5 := by
  decide

/-- C3 (amended): on a query set with no cached count, a filtered
count() always returns the exact count; an unfiltered count() returns
the exact count exactly when the planner-statistics read raises or
fetches no row, and returns the fetched statistics value as-is
(including -1) when the read succeeds. -/
theorem claim_C3 (c : CountCtx) (hc : c.cached = none) :
    (c.hasWhere = true → count c = (c.exactCount : Int)) ∧
    (c.hasWhere = false → c.plannerStats = none → count c = (c.exactCount : Int)) ∧
    (∀ v : Int, c.hasWhere = false → c.plannerStats = some v → count c = v) := by
  refine ⟨?_, ?_, ?_⟩
  · intro hw
    simp [count, hc, hw]
  · intro hw hs
    simp [count, hc, hw, hs]
  · intro v hw hs
    simp [count, hc, hw, hs]

/-- Witness for C3 at an unfiltered query set whose statistics read
raised: count falls back to the exact count, 7. -/
theorem claim_C3_witness :
    count { cached := none, hasWhere := false, plannerStats := none, exactCount := 7 } = 7 :=
  (claim_C3 { cached := none, hasWhere := false, plannerStats := none, exactCount := 7 }
    rfl).2.1 rfl rfl

/-! ## Claims C4 and C9: search -/

theorem toFinset_nil_iff (l : List String) : l.toFinset = ∅ ↔ l = [] := by
  cases l with
  | nil => simp
  | cons a rest => simp

/-- C4 counterexample: on a query set with a configured search field
list, the whitespace-only raw query " " splits into no terms, yet
search does not return the query set unchanged: the string " " is
truthy, so the code annotates the rank and filters with the query
built from no terms (Python None). -/
theorem claim_C4_counterexample :
    search { search_fields := ["name"], ordering_fields := [], filtering_fields := [] } " " ≠
      { search_fields := ["name"], ordering_fields := [], filtering_fields := [] } := by
  decide

/-- C4 (amended): search applies no filtering and returns the query
set unchanged exactly when the raw query is the empty string or no
search fields are configured; a non-empty raw query whose whitespace
split yields no terms (such as a string of only spaces) instead
applies the rank annotation and the full-text filter with an empty
(None) predicate and appends the rank sort key. -/
theorem claim_C4 :
    (∀ qs : DQS, search qs "" = qs) ∧
    (∀ (qs : DQS) (raw : String), qs.search_fields = [] → search qs raw = qs) ∧
    (∀ (qs : DQS) (raw : String), raw ≠ "" → qs.search_fields ≠ [] → pySplitWs raw = [] →
      search qs raw = { qs with searchFilter := some none,
                                attachedOrdering := qs.attachedOrdering ++ ["-search_rank"] }) := by
  refine ⟨?_, ?_, ?_⟩
  · intro qs
    simp [search]
  · intro qs raw h
    simp [search, h]
  · intro qs raw h1 h2 hw
    simp [search, h1, h2, searchTerms, hw]

/-- Witness for C4: the whitespace-only query on a query set with a
configured search field produces the annotate-and-filter state with
the empty predicate. -/
theorem claim_C4_witness :
    search { search_fields := ["name"], ordering_fields := [], filtering_fields := [] } " " =
      { search_fields := ["name"], ordering_fields := [], filtering_fields := [],
        searchFilter := some none, attachedOrdering := ["-search_rank"] } :=
  claim_C4.2.2
    { search_fields := ["name"], ordering_fields := [], filtering_fields := [] }
    " " (by decide) (by decide) (by decide)

/-- C9 counterexample: the empty raw query and the whitespace-only
raw query split to the same (empty) set of non-empty terms, yet
search treats them differently: the empty string is falsy and leaves
the query set unchanged, while " " is truthy and triggers the
annotate-and-filter step. -/
theorem claim_C9_counterexample :
    (pySplitWs "").toFinset = (pySplitWs " ").toFinset ∧
    search { search_fields := ["name"], ordering_fields := [], filtering_fields := [] } "" ≠
      search { search_fields := ["name"], ordering_fields := [], filtering_fields := [] } " " := by
  decide

/-- C9 (amended): for any two non-empty raw queries whose whitespace
splits yield the same set of terms — in particular when one repeats a
term the other lists once — search produces identical query sets:
the same full-text predicate, the same rank annotation and the same
attached ordering, hence the same rows with the same ranks.  (The
empty raw query must be excluded: it is falsy and skips the search
branch entirely, unlike a whitespace-only one.) -/
theorem claim_C9 (qs : DQS) (q1 q2 : String) (h1 : q1 ≠ "") (h2 : q2 ≠ "")
    (hset : (pySplitWs q1).toFinset = (pySplitWs q2).toFinset) :
    search qs q1 = search qs q2 := by
  by_cases hf : qs.search_fields = []
  · simp [search, hf]
  · have hterms : searchTerms q1 = searchTerms q2 := by
      unfold searchTerms
      by_cases hw : pySplitWs q1 = []
      · have hw2 : pySplitWs q2 = [] := by
          have hx : (pySplitWs q2).toFinset = ∅ := by
            rw [← hset, hw]; simp
          exact (toFinset_nil_iff _).mp hx
        simp [hw, hw2]
      · have hw2 : pySplitWs q2 ≠ [] := by
          intro hcon
          apply hw
          have hx : (pySplitWs q1).toFinset = ∅ := by
            rw [hset, hcon]; simp
          exact (toFinset_nil_iff _).mp hx
        simp [hw, hw2, hset]
    simp [search, h1, h2, hf, hterms]

/-- Witness for C9 at the example from the spec: "rio rio de
janeiro" and "rio de janeiro" produce identical search results. -/
theorem claim_C9_witness :
    search { search_fields := ["name"], ordering_fields := [], filtering_fields := [] }
      "rio rio de janeiro" =
    search { search_fields := ["name"], ordering_fields := [], filtering_fields := [] }
      "rio de janeiro" :=
  claim_C9 { search_fields := ["name"], ordering_fields := [], filtering_fields := [] }
    "rio rio de janeiro" "rio de janeiro" (by decide) (by decide) (by decide)

/-! ## Claim C8: apply_ordering -/

/-- C8: apply_ordering agrees, on every query set and every request,
with the specification formulation: keep the requested fields whose
dash-stripped name lies in the (cleaned) union of the declared
ordering and filtering lists; append them to the ordering already
attached when the whitelist is non-empty, and fall back to appending
the declared default ordering when it is empty.  In particular,
apply_ordering([]) on a freshly built query set of a table declaring
ordering=["name"] yields the ordering ["name"]. -/
theorem claim_C8 :
    (∀ (qs : DQS) (query : List String),
      apply_ordering qs query = applyOrderingSpec qs query) ∧
    (apply_ordering
      { search_fields := [], ordering_fields := ["name"], filtering_fields := [] }
      []).attachedOrdering = ["name"] := by
  constructor
  · intro qs query
    unfold apply_ordering applyOrderingSpec orderingWhitelist
    have hfilter :
        List.filter (fun field => pyReplace field "-" "" ∈
          (((qs.ordering_fields ++ qs.filtering_fields).dedup).map cleanAllowedField)) query =
        List.filter (fun field => pyReplace field "-" "" ∈
          ((qs.ordering_fields ++ qs.filtering_fields).map cleanAllowedField)) query := by
      apply List.filter_congr
      intro x _
      rw [decide_eq_decide]
      simp only [List.mem_map, List.mem_dedup]
    simp only [hfilter]
    by_cases hq : List.filter (fun field => decide (pyReplace field "-" "" ∈
        ((qs.ordering_fields ++ qs.filtering_fields).map cleanAllowedField))) query = []
    · have hn1 : ¬ (List.filter (fun field => decide (pyReplace field "-" "" ∈
          ((qs.ordering_fields ++ qs.filtering_fields).map cleanAllowedField))) query ≠ []) :=
        fun hne => hne hq
      rw [if_neg hn1, if_neg hn1]
      by_cases ho : qs.ordering_fields = []
      · rw [if_neg (fun hne => hne ho),
          show qs.attachedOrdering ++ qs.ordering_fields = qs.attachedOrdering by
            rw [ho, List.append_nil]]
      · rw [if_pos ho]
    · rw [if_pos hq, if_pos hq]
  · decide

end BrasilIO
